import Mathlib

/-!
Verification of the FlaxEngine behavior-tree node semantics
(`Source/Engine/AI/BehaviorTreeNodes.h`).

The repository provides the node class declarations (state structs, fields,
overridden lifecycle methods) in the header; the method bodies live in a
translation unit that is not part of the sources at hand, so each operation
below is modelled from the specification of the node contracts (traversal
policies of `Sequence`/`Selector`, decorator `CanUpdate`/`PostUpdate`
transformations, state lifetimes).  Time quantities that the engine stores as
`float` seconds are modelled as rationals; node indices and counters (`int32`
in the header) as `Nat`/`Int`.
-/

/-- Modelled from the spec: the result type of `BehaviorTreeNode::Update`,
declared outside the sources at hand.  Every update yields one of
Success, Running, Failed. -/
inductive BehaviorUpdateResult where
  | Success
  | Running
  | Failed
deriving DecidableEq, Repr

namespace BehaviorTreeInvertDecorator

/-- Modelled from the spec: `BehaviorTreeInvertDecorator::PostUpdate` (the body
is absent from the header) swaps Success and Failed and leaves Running
unchanged. -/
def PostUpdate : BehaviorUpdateResult → BehaviorUpdateResult
  | .Success => .Failed
  | .Failed => .Success
  | .Running => .Running

end BehaviorTreeInvertDecorator

/-- Modelled from the spec: the comparison modes available to the
knowledge-conditional decorators. -/
inductive BehaviorValueComparison where
  | Equal
  | NotEqual
  | Less
  | LessEqual
  | Greater
  | GreaterEqual
deriving DecidableEq, Repr

/-- Modelled from the spec: compare two resolved knowledge values with the
configured operator. -/
def compareBehaviorValues (comparison : BehaviorValueComparison) (a b : ℚ) : Bool :=
  match comparison with
  | .Equal => decide (a = b)
  | .NotEqual => decide (a ≠ b)
  | .Less => decide (a < b)
  | .LessEqual => decide (a ≤ b)
  | .Greater => decide (b < a)
  | .GreaterEqual => decide (b ≤ a)

namespace BehaviorTreeKnowledgeConditionalDecorator

/-- Modelled from the spec: `BehaviorTreeKnowledgeConditionalDecorator::CanUpdate`
(body absent from the header) resolves `ValueA` from the knowledge store
(`none` when the selector fails to resolve) and compares it against the literal
`ValueB`; an unresolved value fails the condition. -/
def CanUpdate (valueA : Option ℚ) (valueB : ℚ)
    (comparison : BehaviorValueComparison) : Bool :=
  match valueA with
  | some a => compareBehaviorValues comparison a valueB
  | none => false

end BehaviorTreeKnowledgeConditionalDecorator

namespace BehaviorTreeKnowledgeValuesConditionalDecorator

/-- Modelled from the spec: `BehaviorTreeKnowledgeValuesConditionalDecorator::CanUpdate`
resolves both `ValueA` and `ValueB` from the knowledge store and compares them;
if either selector fails to resolve, the condition fails. -/
def CanUpdate (valueA valueB : Option ℚ)
    (comparison : BehaviorValueComparison) : Bool :=
  match valueA, valueB with
  | some a, some b => compareBehaviorValues comparison a b
  | _, _ => false

end BehaviorTreeKnowledgeValuesConditionalDecorator

namespace BehaviorTreeHasTagDecorator

/-- Modelled from the spec: `BehaviorTreeHasTagDecorator::CanUpdate` resolves an
actor reference from knowledge (modelled by the actor's tag set, `none` when the
selector fails to resolve), checks tag membership, optionally inverted; an
unresolved actor reference fails the condition. -/
def CanUpdate (actorTags : Option (List Nat)) (tag : Nat) (invert : Bool) : Bool :=
  match actorTags with
  | some tags => xor (tags.contains tag) invert
  | none => false

end BehaviorTreeHasTagDecorator

namespace BehaviorTreeLoopDecorator

/-- The per-instance state of `BehaviorTreeLoopDecorator` (header: `struct State
{ int32 Loops; }`). -/
structure State where
  Loops : Int
deriving DecidableEq, Repr

/-- Modelled from the spec: `BehaviorTreeLoopDecorator::InitState` (body absent
from the header) initializes the remaining-iterations counter from
`LoopCountSelector` when it resolves, otherwise from the fixed `LoopCount`
field. -/
def InitState (loopCount : Int) (loopCountSelector : Option Int) : State :=
  match loopCountSelector with
  | some v => ⟨v⟩
  | none => ⟨loopCount⟩

/-- Modelled from the spec: `BehaviorTreeLoopDecorator::PostUpdate` (body absent
from the header).  Running passes through (the iteration has not completed).  A
Failed completion aborts the loop early and passes Failed through.  A Success
completion decrements the counter; while the counter is still above zero the
result is overridden to Running (so the composite re-enters and restarts the
child), and at zero the last real result (Success) passes through. -/
def PostUpdate (state : State) (result : BehaviorUpdateResult) :
    BehaviorUpdateResult × State :=
  match result with
  | .Running => (.Running, state)
  | .Failed => (.Failed, state)
  | .Success =>
    (if 0 < state.Loops - 1 then .Running else .Success, ⟨state.Loops - 1⟩)

/-- Iterate the decorator over a sequence of child completions: each list entry
is the child's result at one completed run; returns the decorator's observed
results, threading the counter state. -/
def Run (state : State) : List BehaviorUpdateResult → List BehaviorUpdateResult
  | [] => []
  | r :: rs => (PostUpdate state r).1 :: Run (PostUpdate state r).2 rs

end BehaviorTreeLoopDecorator

namespace BehaviorTreeTimeLimitDecorator

/-- The per-instance state of `BehaviorTreeTimeLimitDecorator` (header:
`struct State { float TimeLeft; }`), time modelled as rational seconds. -/
structure State where
  TimeLeft : ℚ
deriving DecidableEq, Repr

/-- Modelled from the spec: `BehaviorTreeTimeLimitDecorator::Update` (body
absent from the header).  Each tick subtracts the delta time from the remaining
time; if it reaches or crosses zero, the result is forced to Failed regardless
of the child's result and the child subtree receives BecomeIrrelevant
(the returned flag); otherwise the child's result passes through. -/
def Update (state : State) (deltaTime : ℚ) (childResult : BehaviorUpdateResult) :
    BehaviorUpdateResult × State × Bool :=
  if state.TimeLeft - deltaTime ≤ 0 then
    (.Failed, ⟨state.TimeLeft - deltaTime⟩, true)
  else
    (childResult, ⟨state.TimeLeft - deltaTime⟩, false)

end BehaviorTreeTimeLimitDecorator

namespace BehaviorTreeCooldownDecorator

/-- The per-instance state of `BehaviorTreeCooldownDecorator` (header:
`struct State { float EndTime; }`), time modelled as rational seconds. -/
structure State where
  EndTime : ℚ
deriving DecidableEq, Repr

/-- Modelled from the spec: `BehaviorTreeCooldownDecorator::ReleaseState` (body
absent from the header) must NOT discard the stored end time when the node
becomes irrelevant: the cooldown keeps counting while the node is not ticked,
and the state block persists until the owning tree instance is destroyed. -/
def ReleaseState (state : State) : State :=
  state

/-- Modelled from the spec: `BehaviorTreeCooldownDecorator::CanUpdate` (body
absent from the header) returns false while the current time is before the
stored end time. -/
def CanUpdate (state : State) (time : ℚ) : Bool :=
  decide (state.EndTime ≤ time)

end BehaviorTreeCooldownDecorator

/-- Modelled from the spec: one tick's behavior of a compound node's child.
`none` means the child's `CanUpdate` returned false this tick, so the compound
skips it without calling its `Update`; `some r` means the child's `Update`,
when called, returns `r`. -/
abbrev ChildTick := Option BehaviorUpdateResult

/-- Modelled from the spec: the iteration of `BehaviorTreeSequenceNode::Update`
(body absent from the header) over the children starting at absolute index `i`
(the list holds the children from index `i` on).  A skipped child (`CanUpdate`
false) is advanced past without calling `Update`; a Success advances to the
next child; Running or Failed stops the iteration and becomes the sequence's
result, Running keeping the current-child index at the running child while a
stop with a final outcome resets it to 0; if all children succeed, the result
is Success and the index resets to 0.  Returns the result, the new
current-child index, and the list of child indices whose `Update` was called
this tick. -/
def sequenceUpdateFrom : List ChildTick → Nat → BehaviorUpdateResult × Nat × List Nat
  | [], _ => (.Success, 0, [])
  | none :: rest, i => sequenceUpdateFrom rest (i + 1)
  | some .Success :: rest, i =>
    ((sequenceUpdateFrom rest (i + 1)).1, (sequenceUpdateFrom rest (i + 1)).2.1,
      i :: (sequenceUpdateFrom rest (i + 1)).2.2)
  | some .Failed :: _, i => (.Failed, 0, [i])
  | some .Running :: _, i => (.Running, i, [i])

/-- Modelled from the spec: the iteration of `BehaviorTreeSelectorNode::Update`,
the mirror image of the sequence: a Failed child advances, Success or Running
stops and becomes the result; if all children fail, the result is Failed and
the current-child index resets to 0. -/
def selectorUpdateFrom : List ChildTick → Nat → BehaviorUpdateResult × Nat × List Nat
  | [], _ => (.Failed, 0, [])
  | none :: rest, i => selectorUpdateFrom rest (i + 1)
  | some .Failed :: rest, i =>
    ((selectorUpdateFrom rest (i + 1)).1, (selectorUpdateFrom rest (i + 1)).2.1,
      i :: (selectorUpdateFrom rest (i + 1)).2.2)
  | some .Success :: _, i => (.Success, 0, [i])
  | some .Running :: _, i => (.Running, i, [i])

namespace BehaviorTreeSequenceNode

/-- The per-instance state of `BehaviorTreeSequenceNode` (header: `struct State
{ int32 CurrentChildIndex = 0; }`), the index as `Nat`. -/
structure State where
  CurrentChildIndex : Nat
deriving DecidableEq, Repr

/-- Modelled from the spec: `BehaviorTreeSequenceNode::Update` starts iterating
at the stored current-child index (persisted across Running ticks) and applies
the sequence policy to the children from there on. -/
def Update (children : List ChildTick) (state : State) :
    BehaviorUpdateResult × State × List Nat :=
  ((sequenceUpdateFrom (children.drop state.CurrentChildIndex) state.CurrentChildIndex).1,
    ⟨(sequenceUpdateFrom (children.drop state.CurrentChildIndex) state.CurrentChildIndex).2.1⟩,
    (sequenceUpdateFrom (children.drop state.CurrentChildIndex) state.CurrentChildIndex).2.2)

end BehaviorTreeSequenceNode

namespace BehaviorTreeSelectorNode

/-- The per-instance state of `BehaviorTreeSelectorNode` (header: `struct State
{ int32 CurrentChildIndex = 0; }`), the index as `Nat`. -/
structure State where
  CurrentChildIndex : Nat
deriving DecidableEq, Repr

/-- Modelled from the spec: `BehaviorTreeSelectorNode::Update` starts iterating
at the stored current-child index and applies the selector policy to the
children from there on. -/
def Update (children : List ChildTick) (state : State) :
    BehaviorUpdateResult × State × List Nat :=
  ((selectorUpdateFrom (children.drop state.CurrentChildIndex) state.CurrentChildIndex).1,
    ⟨(selectorUpdateFrom (children.drop state.CurrentChildIndex) state.CurrentChildIndex).2.1⟩,
    (selectorUpdateFrom (children.drop state.CurrentChildIndex) state.CurrentChildIndex).2.2)

end BehaviorTreeSelectorNode

/-- When the children at indices below `k` all succeed and the child at `k`
fails, the sequence iteration fails and only children up to `k` are updated. -/
theorem sequenceUpdateFrom_fail (rs : List BehaviorUpdateResult) :
    ∀ (i k : Nat) (hk : k < rs.length),
    (∀ j (hj : j < rs.length), j < k → rs.get ⟨j, hj⟩ = .Success) →
    rs.get ⟨k, hk⟩ = .Failed →
    (sequenceUpdateFrom (rs.map some) i).1 = .Failed ∧
    ∀ j ∈ (sequenceUpdateFrom (rs.map some) i).2.2, j ≤ i + k := by
  induction rs with
  | nil => intro i k hk; exact absurd hk (by simp)
  | cons r rest ih =>
    intro i k hk hpre hfail
    cases k with
    | zero =>
      have hr : r = .Failed := hfail
      subst hr
      exact ⟨rfl, by simp [sequenceUpdateFrom]⟩
    | succ k =>
      have hr : r = .Success := hpre 0 (by simp) (by omega)
      subst hr
      have hk' : k < rest.length := by simpa using Nat.lt_of_succ_lt_succ hk
      have hpre' : ∀ j (hj : j < rest.length), j < k → rest.get ⟨j, hj⟩ = .Success :=
        fun j hj hlt => hpre (j + 1) (by simpa using Nat.succ_lt_succ hj) (by omega)
      have hfail' : rest.get ⟨k, hk'⟩ = .Failed := hfail
      have h := ih (i + 1) k hk' hpre' hfail'
      refine ⟨h.1, fun j hj => ?_⟩
      simp only [sequenceUpdateFrom, List.map_cons, List.mem_cons] at hj ⊢
      rcases hj with rfl | hj
      · omega
      · have := h.2 j hj; omega

/-- When every child succeeds, the sequence iteration returns Success and the
current-child index resets to 0. -/
theorem sequenceUpdateFrom_allSuccess (rs : List BehaviorUpdateResult) :
    ∀ i, (∀ j (hj : j < rs.length), rs.get ⟨j, hj⟩ = .Success) →
    (sequenceUpdateFrom (rs.map some) i).1 = .Success ∧
    (sequenceUpdateFrom (rs.map some) i).2.1 = 0 := by
  induction rs with
  | nil => exact fun i _ => ⟨rfl, rfl⟩
  | cons r rest ih =>
    intro i hall
    have hr : r = .Success := hall 0 (by simp)
    subst hr
    exact ih (i + 1) fun j hj => hall (j + 1) (by simpa using Nat.succ_lt_succ hj)

/-- A Running sequence iteration stores the absolute index of the child that
returned Running. -/
theorem sequenceUpdateFrom_running (cs : List ChildTick) :
    ∀ i, (sequenceUpdateFrom cs i).1 = .Running →
    ∃ j, ∃ hj : j < cs.length,
      (sequenceUpdateFrom cs i).2.1 = i + j ∧ cs.get ⟨j, hj⟩ = some .Running := by
  induction cs with
  | nil => intro i h; exact absurd h (by simp [sequenceUpdateFrom])
  | cons c rest ih =>
    intro i h
    match c with
    | none =>
      obtain ⟨j, hj, h1, h2⟩ := ih (i + 1) h
      refine ⟨j + 1, by simpa using Nat.succ_lt_succ hj, ?_, h2⟩
      simp only [sequenceUpdateFrom]
      omega
    | some .Success =>
      obtain ⟨j, hj, h1, h2⟩ := ih (i + 1) h
      refine ⟨j + 1, by simpa using Nat.succ_lt_succ hj, ?_, h2⟩
      simp only [sequenceUpdateFrom]
      omega
    | some .Failed => exact absurd h (by simp [sequenceUpdateFrom])
    | some .Running => exact ⟨0, by simp, by simp [sequenceUpdateFrom], rfl⟩

/-- When the first remaining child is not skipped, the first child whose
`Update` is called by the sequence iteration is the starting index. -/
theorem sequenceUpdateFrom_first (cs : List ChildTick) (i : Nat)
    (r : BehaviorUpdateResult) (h : cs.head? = some (some r)) :
    ((sequenceUpdateFrom cs i).2.2).head? = some i := by
  match cs with
  | [] => exact absurd h (by simp)
  | c :: rest =>
    have hc : c = some r := by simpa using h
    subst hc
    cases r <;> rfl

/-- When the children at indices below `k` all fail and the child at `k`
succeeds, the selector iteration succeeds and only children up to `k` are
updated. -/
theorem selectorUpdateFrom_success (rs : List BehaviorUpdateResult) :
    ∀ (i k : Nat) (hk : k < rs.length),
    (∀ j (hj : j < rs.length), j < k → rs.get ⟨j, hj⟩ = .Failed) →
    rs.get ⟨k, hk⟩ = .Success →
    (selectorUpdateFrom (rs.map some) i).1 = .Success ∧
    ∀ j ∈ (selectorUpdateFrom (rs.map some) i).2.2, j ≤ i + k := by
  induction rs with
  | nil => intro i k hk; exact absurd hk (by simp)
  | cons r rest ih =>
    intro i k hk hpre hsucc
    cases k with
    | zero =>
      have hr : r = .Success := hsucc
      subst hr
      exact ⟨rfl, by simp [selectorUpdateFrom]⟩
    | succ k =>
      have hr : r = .Failed := hpre 0 (by simp) (by omega)
      subst hr
      have hk' : k < rest.length := by simpa using Nat.lt_of_succ_lt_succ hk
      have hpre' : ∀ j (hj : j < rest.length), j < k → rest.get ⟨j, hj⟩ = .Failed :=
        fun j hj hlt => hpre (j + 1) (by simpa using Nat.succ_lt_succ hj) (by omega)
      have hsucc' : rest.get ⟨k, hk'⟩ = .Success := hsucc
      have h := ih (i + 1) k hk' hpre' hsucc'
      refine ⟨h.1, fun j hj => ?_⟩
      simp only [selectorUpdateFrom, List.map_cons, List.mem_cons] at hj ⊢
      rcases hj with rfl | hj
      · omega
      · have := h.2 j hj; omega

/-- When every child fails, the selector iteration returns Failed and the
current-child index resets to 0. -/
theorem selectorUpdateFrom_allFailed (rs : List BehaviorUpdateResult) :
    ∀ i, (∀ j (hj : j < rs.length), rs.get ⟨j, hj⟩ = .Failed) →
    (selectorUpdateFrom (rs.map some) i).1 = .Failed ∧
    (selectorUpdateFrom (rs.map some) i).2.1 = 0 := by
  induction rs with
  | nil => exact fun i _ => ⟨rfl, rfl⟩
  | cons r rest ih =>
    intro i hall
    have hr : r = .Failed := hall 0 (by simp)
    subst hr
    exact ih (i + 1) fun j hj => hall (j + 1) (by simpa using Nat.succ_lt_succ hj)

/-- A Running selector iteration stores the absolute index of the child that
returned Running. -/
theorem selectorUpdateFrom_running (cs : List ChildTick) :
    ∀ i, (selectorUpdateFrom cs i).1 = .Running →
    ∃ j, ∃ hj : j < cs.length,
      (selectorUpdateFrom cs i).2.1 = i + j ∧ cs.get ⟨j, hj⟩ = some .Running := by
  induction cs with
  | nil => intro i h; exact absurd h (by simp [selectorUpdateFrom])
  | cons c rest ih =>
    intro i h
    match c with
    | none =>
      obtain ⟨j, hj, h1, h2⟩ := ih (i + 1) h
      refine ⟨j + 1, by simpa using Nat.succ_lt_succ hj, ?_, h2⟩
      simp only [selectorUpdateFrom]
      omega
    | some .Failed =>
      obtain ⟨j, hj, h1, h2⟩ := ih (i + 1) h
      refine ⟨j + 1, by simpa using Nat.succ_lt_succ hj, ?_, h2⟩
      simp only [selectorUpdateFrom]
      omega
    | some .Success => exact absurd h (by simp [selectorUpdateFrom])
    | some .Running => exact ⟨0, by simp, by simp [selectorUpdateFrom], rfl⟩

/-- When the first remaining child is not skipped, the first child whose
`Update` is called by the selector iteration is the starting index. -/
theorem selectorUpdateFrom_first (cs : List ChildTick) (i : Nat)
    (r : BehaviorUpdateResult) (h : cs.head? = some (some r)) :
    ((selectorUpdateFrom cs i).2.2).head? = some i := by
  match cs with
  | [] => exact absurd h (by simp)
  | c :: rest =>
    have hc : c = some r := by simpa using h
    subst hc
    cases r <;> rfl

mutual

/-- Modelled from the spec: the transient state a node holds while relevant.
`basic` stands for any node whose state holds no nested resources;
`subTreeState` is `BehaviorTreeSubTreeNode::State` (header: a `Memory` buffer
plus a `RelevantNodes` bitset for the nested tree), modelled as the nested
tree's per-node entries. -/
inductive NodeState where
  | basic : NodeState
  | subTreeState : NestedBuf → NodeState

/-- Modelled from the spec: the nested tree's instance data held by a SubTree
node: one entry per nested node pairing its relevancy bit (from the
`RelevantNodes` bitset) with that node's state in the `Memory` buffer. -/
inductive NestedBuf where
  | nil : NestedBuf
  | cons : Bool → NodeState → NestedBuf → NestedBuf

end

mutual

/-- The number of nested nodes transitively holding live state: nodes whose
relevancy bit is set, including the contents of a relevant nested
sub-tree-of-sub-trees. -/
def NodeState.liveCount : NodeState → Nat
  | .basic => 0
  | .subTreeState buf => NestedBuf.liveCount buf

/-- Live-state count of a nested buffer. -/
def NestedBuf.liveCount : NestedBuf → Nat
  | .nil => 0
  | .cons b s rest =>
    (if b then 1 + NodeState.liveCount s else 0) + NestedBuf.liveCount rest

end

mutual

/-- Modelled from the spec: `BehaviorTreeSubTreeNode::ReleaseState` (body absent
from the header) propagates BecomeIrrelevant into every currently-relevant
nested node before freeing the sub-buffer.  Returns the number of
BecomeIrrelevant notifications delivered and the state left behind (the freed
buffer). -/
def NodeState.releaseState : NodeState → Nat × NodeState
  | .basic => (0, .basic)
  | .subTreeState buf => (NestedBuf.becomeIrrelevantAll buf, .subTreeState .nil)

/-- Modelled from the spec: deliver BecomeIrrelevant to every nested node whose
relevancy bit is set; each notified node's own `ReleaseState` runs in turn, so
a relevant nested sub-tree recursively notifies its own relevant nodes. -/
def NestedBuf.becomeIrrelevantAll : NestedBuf → Nat
  | .nil => 0
  | .cons b s rest =>
    (if b then 1 + (NodeState.releaseState s).1 else 0) + NestedBuf.becomeIrrelevantAll rest

end

mutual

/-- Releasing a node's state delivers one BecomeIrrelevant per transitively
live nested node. -/
theorem NodeState.releaseState_count : ∀ s : NodeState, (NodeState.releaseState s).1 = NodeState.liveCount s
  | .basic => rfl
  | .subTreeState buf => NestedBuf.becomeIrrelevantAll_count buf

/-- Releasing a nested buffer delivers one BecomeIrrelevant per transitively
live nested node. -/
theorem NestedBuf.becomeIrrelevantAll_count :
    ∀ buf : NestedBuf, NestedBuf.becomeIrrelevantAll buf = NestedBuf.liveCount buf
  | .nil => rfl
  | .cons b s rest => by
    have h1 := NodeState.releaseState_count s
    have h2 := NestedBuf.becomeIrrelevantAll_count rest
    simp only [NestedBuf.becomeIrrelevantAll, NestedBuf.liveCount, h1, h2]

end

/-- A Running sequence update stores the index of the Running child and the
next update on the node resumes iteration at that same child. -/
theorem sequenceUpdate_running_resumes (rs rs2 : List BehaviorUpdateResult) (i : Nat)
    (hrun : (BehaviorTreeSequenceNode.Update (rs.map some) ⟨i⟩).1 = .Running) :
    (∃ hk : (BehaviorTreeSequenceNode.Update (rs.map some) ⟨i⟩).2.1.CurrentChildIndex < rs.length,
      rs.get ⟨(BehaviorTreeSequenceNode.Update (rs.map some) ⟨i⟩).2.1.CurrentChildIndex, hk⟩ =
        .Running) ∧
    ((BehaviorTreeSequenceNode.Update (rs.map some) ⟨i⟩).2.1.CurrentChildIndex < rs2.length →
      ((BehaviorTreeSequenceNode.Update (rs2.map some)
          (BehaviorTreeSequenceNode.Update (rs.map some) ⟨i⟩).2.1).2.2).head? =
        some (BehaviorTreeSequenceNode.Update (rs.map some) ⟨i⟩).2.1.CurrentChildIndex) := by
  simp only [BehaviorTreeSequenceNode.Update] at hrun ⊢
  obtain ⟨j, hj, h1, h2⟩ := sequenceUpdateFrom_running ((rs.map some).drop i) i hrun
  have hj' : j < rs.length - i := by simpa using hj
  have hget : rs.get ⟨i + j, by omega⟩ = .Running := by
    simp only [List.get_eq_getElem, List.getElem_drop, List.getElem_map] at h2
    simpa [List.get_eq_getElem] using h2
  have hmain : ∀ p : Nat, p = i + j →
      (∃ hk : p < rs.length, rs.get ⟨p, hk⟩ = .Running) ∧
      (p < rs2.length →
        ((sequenceUpdateFrom ((rs2.map some).drop p) p).2.2).head? = some p) := by
    rintro p rfl
    refine ⟨⟨by omega, hget⟩, fun hk2 => ?_⟩
    apply sequenceUpdateFrom_first _ _ (rs2.get ⟨i + j, hk2⟩)
    rw [List.head?_drop]
    simp [List.getElem?_eq_getElem, hk2, List.get_eq_getElem]
  exact hmain _ h1

/-- A Running selector update stores the index of the Running child and the
next update on the node resumes iteration at that same child. -/
theorem selectorUpdate_running_resumes (rs rs2 : List BehaviorUpdateResult) (i : Nat)
    (hrun : (BehaviorTreeSelectorNode.Update (rs.map some) ⟨i⟩).1 = .Running) :
    (∃ hk : (BehaviorTreeSelectorNode.Update (rs.map some) ⟨i⟩).2.1.CurrentChildIndex < rs.length,
      rs.get ⟨(BehaviorTreeSelectorNode.Update (rs.map some) ⟨i⟩).2.1.CurrentChildIndex, hk⟩ =
        .Running) ∧
    ((BehaviorTreeSelectorNode.Update (rs.map some) ⟨i⟩).2.1.CurrentChildIndex < rs2.length →
      ((BehaviorTreeSelectorNode.Update (rs2.map some)
          (BehaviorTreeSelectorNode.Update (rs.map some) ⟨i⟩).2.1).2.2).head? =
        some (BehaviorTreeSelectorNode.Update (rs.map some) ⟨i⟩).2.1.CurrentChildIndex) := by
  simp only [BehaviorTreeSelectorNode.Update] at hrun ⊢
  obtain ⟨j, hj, h1, h2⟩ := selectorUpdateFrom_running ((rs.map some).drop i) i hrun
  have hj' : j < rs.length - i := by simpa using hj
  have hget : rs.get ⟨i + j, by omega⟩ = .Running := by
    simp only [List.get_eq_getElem, List.getElem_drop, List.getElem_map] at h2
    simpa [List.get_eq_getElem] using h2
  have hmain : ∀ p : Nat, p = i + j →
      (∃ hk : p < rs.length, rs.get ⟨p, hk⟩ = .Running) ∧
      (p < rs2.length →
        ((selectorUpdateFrom ((rs2.map some).drop p) p).2.2).head? = some p) := by
    rintro p rfl
    refine ⟨⟨by omega, hget⟩, fun hk2 => ?_⟩
    apply selectorUpdateFrom_first _ _ (rs2.get ⟨i + j, hk2⟩)
    rw [List.head?_drop]
    simp [List.getElem?_eq_getElem, hk2, List.get_eq_getElem]
  exact hmain _ h1

/-- C1: for a Sequence whose first `k` children succeed this tick while the
child at index `k` fails, the update returns Failed and no child with index
greater than `k` has its `Update` called this tick; when every child succeeds,
the update returns Success and the stored current-child index resets to 0. -/
theorem sequence_policy (rs : List BehaviorUpdateResult) :
    (∀ (k : Nat) (hk : k < rs.length),
      (∀ j (hj : j < rs.length), j < k → rs.get ⟨j, hj⟩ = .Success) →
      rs.get ⟨k, hk⟩ = .Failed →
      (BehaviorTreeSequenceNode.Update (rs.map some) ⟨0⟩).1 = .Failed ∧
      ∀ j ∈ (BehaviorTreeSequenceNode.Update (rs.map some) ⟨0⟩).2.2, j ≤ k) ∧
    ((∀ j (hj : j < rs.length), rs.get ⟨j, hj⟩ = .Success) →
      (BehaviorTreeSequenceNode.Update (rs.map some) ⟨0⟩).1 = .Success ∧
      (BehaviorTreeSequenceNode.Update (rs.map some) ⟨0⟩).2.1.CurrentChildIndex = 0) := by
  constructor
  · intro k hk hpre hfail
    have h := sequenceUpdateFrom_fail rs 0 k hk hpre hfail
    refine ⟨h.1, fun j hj => ?_⟩
    have := h.2 j hj
    omega
  · intro hall
    exact sequenceUpdateFrom_allSuccess rs 0 hall

/-- Witness for C1: with children returning Success, Failed, Success the
sequence fails updating only children 0 and 1; with children returning
Success, Success it succeeds and resets its index to 0. -/
theorem sequence_policy_witness :
    (BehaviorTreeSequenceNode.Update
        ([BehaviorUpdateResult.Success, .Failed, .Success].map some) ⟨0⟩).1 = .Failed ∧
    (∀ j ∈ (BehaviorTreeSequenceNode.Update
        ([BehaviorUpdateResult.Success, .Failed, .Success].map some) ⟨0⟩).2.2, j ≤ 1) ∧
    (BehaviorTreeSequenceNode.Update
        ([BehaviorUpdateResult.Success, .Success].map some) ⟨0⟩).1 = .Success ∧
    (BehaviorTreeSequenceNode.Update
        ([BehaviorUpdateResult.Success, .Success].map some) ⟨0⟩).2.1.CurrentChildIndex = 0 :=
  ⟨((sequence_policy [.Success, .Failed, .Success]).1 1 (by decide) (by decide) (by decide)).1,
    ((sequence_policy [.Success, .Failed, .Success]).1 1 (by decide) (by decide) (by decide)).2,
    ((sequence_policy [.Success, .Success]).2 (by decide)).1,
    ((sequence_policy [.Success, .Success]).2 (by decide)).2⟩

/-- C2: for a Selector whose first `k` children fail this tick while the child
at index `k` succeeds, the update returns Success and no child with index
greater than `k` has its `Update` called this tick; when every child fails,
the update returns Failed and the stored current-child index resets to 0. -/
theorem selector_policy (rs : List BehaviorUpdateResult) :
    (∀ (k : Nat) (hk : k < rs.length),
      (∀ j (hj : j < rs.length), j < k → rs.get ⟨j, hj⟩ = .Failed) →
      rs.get ⟨k, hk⟩ = .Success →
      (BehaviorTreeSelectorNode.Update (rs.map some) ⟨0⟩).1 = .Success ∧
      ∀ j ∈ (BehaviorTreeSelectorNode.Update (rs.map some) ⟨0⟩).2.2, j ≤ k) ∧
    ((∀ j (hj : j < rs.length), rs.get ⟨j, hj⟩ = .Failed) →
      (BehaviorTreeSelectorNode.Update (rs.map some) ⟨0⟩).1 = .Failed ∧
      (BehaviorTreeSelectorNode.Update (rs.map some) ⟨0⟩).2.1.CurrentChildIndex = 0) := by
  constructor
  · intro k hk hpre hsucc
    have h := selectorUpdateFrom_success rs 0 k hk hpre hsucc
    refine ⟨h.1, fun j hj => ?_⟩
    have := h.2 j hj
    omega
  · intro hall
    exact selectorUpdateFrom_allFailed rs 0 hall

/-- Witness for C2: with children returning Failed, Success, Failed the
selector succeeds updating only children 0 and 1; with children returning
Failed, Failed it fails and resets its index to 0. -/
theorem selector_policy_witness :
    (BehaviorTreeSelectorNode.Update
        ([BehaviorUpdateResult.Failed, .Success, .Failed].map some) ⟨0⟩).1 = .Success ∧
    (∀ j ∈ (BehaviorTreeSelectorNode.Update
        ([BehaviorUpdateResult.Failed, .Success, .Failed].map some) ⟨0⟩).2.2, j ≤ 1) ∧
    (BehaviorTreeSelectorNode.Update
        ([BehaviorUpdateResult.Failed, .Failed].map some) ⟨0⟩).1 = .Failed ∧
    (BehaviorTreeSelectorNode.Update
        ([BehaviorUpdateResult.Failed, .Failed].map some) ⟨0⟩).2.1.CurrentChildIndex = 0 :=
  ⟨((selector_policy [.Failed, .Success, .Failed]).1 1 (by decide) (by decide) (by decide)).1,
    ((selector_policy [.Failed, .Success, .Failed]).1 1 (by decide) (by decide) (by decide)).2,
    ((selector_policy [.Failed, .Failed]).2 (by decide)).1,
    ((selector_policy [.Failed, .Failed]).2 (by decide)).2⟩

/-- C3: for both compound nodes, when an update returns Running the stored
current-child index is the index of the child that returned Running, and the
next update on the node (with the node still relevant, so the state persists)
iterates starting at that same child: the first child whose `Update` is called
next tick is the stored index. -/
theorem compound_running_resumes (rs rs2 : List BehaviorUpdateResult) (i i' : Nat) :
    ((BehaviorTreeSequenceNode.Update (rs.map some) ⟨i⟩).1 = .Running →
      (∃ hk : (BehaviorTreeSequenceNode.Update (rs.map some) ⟨i⟩).2.1.CurrentChildIndex <
          rs.length,
        rs.get ⟨(BehaviorTreeSequenceNode.Update (rs.map some) ⟨i⟩).2.1.CurrentChildIndex, hk⟩ =
          .Running) ∧
      ((BehaviorTreeSequenceNode.Update (rs.map some) ⟨i⟩).2.1.CurrentChildIndex < rs2.length →
        ((BehaviorTreeSequenceNode.Update (rs2.map some)
            (BehaviorTreeSequenceNode.Update (rs.map some) ⟨i⟩).2.1).2.2).head? =
          some (BehaviorTreeSequenceNode.Update (rs.map some) ⟨i⟩).2.1.CurrentChildIndex)) ∧
    ((BehaviorTreeSelectorNode.Update (rs.map some) ⟨i'⟩).1 = .Running →
      (∃ hk : (BehaviorTreeSelectorNode.Update (rs.map some) ⟨i'⟩).2.1.CurrentChildIndex <
          rs.length,
        rs.get ⟨(BehaviorTreeSelectorNode.Update (rs.map some) ⟨i'⟩).2.1.CurrentChildIndex, hk⟩ =
          .Running) ∧
      ((BehaviorTreeSelectorNode.Update (rs.map some) ⟨i'⟩).2.1.CurrentChildIndex < rs2.length →
        ((BehaviorTreeSelectorNode.Update (rs2.map some)
            (BehaviorTreeSelectorNode.Update (rs.map some) ⟨i'⟩).2.1).2.2).head? =
          some (BehaviorTreeSelectorNode.Update (rs.map some) ⟨i'⟩).2.1.CurrentChildIndex)) :=
  ⟨fun hrun => sequenceUpdate_running_resumes rs rs2 i hrun,
    fun hrun => selectorUpdate_running_resumes rs rs2 i' hrun⟩

/-- Witness for C3: children Success, Running leave a sequence Running at
index 1 and the next update calls child 1 first; children Failed, Running do
the same for a selector. -/
theorem compound_running_resumes_witness :
    ((BehaviorTreeSequenceNode.Update ([BehaviorUpdateResult.Success, .Running].map some)
        (BehaviorTreeSequenceNode.Update
          ([BehaviorUpdateResult.Success, .Running].map some) ⟨0⟩).2.1).2.2).head? =
      some (BehaviorTreeSequenceNode.Update
        ([BehaviorUpdateResult.Success, .Running].map some) ⟨0⟩).2.1.CurrentChildIndex ∧
    ((BehaviorTreeSelectorNode.Update ([BehaviorUpdateResult.Failed, .Running].map some)
        (BehaviorTreeSelectorNode.Update
          ([BehaviorUpdateResult.Failed, .Running].map some) ⟨0⟩).2.1).2.2).head? =
      some (BehaviorTreeSelectorNode.Update
        ([BehaviorUpdateResult.Failed, .Running].map some) ⟨0⟩).2.1.CurrentChildIndex :=
  ⟨((compound_running_resumes [.Success, .Running] [.Success, .Running] 0 0).1
      (by decide)).2 (by decide),
    ((compound_running_resumes [.Failed, .Running] [.Failed, .Running] 0 0).2
      (by decide)).2 (by decide)⟩

/-- C8: `BehaviorTreeInvertDecorator::PostUpdate` maps Success to Failed,
Failed to Success, and leaves Running unchanged. -/
theorem invert_postUpdate_spec :
    BehaviorTreeInvertDecorator.PostUpdate .Success = .Failed ∧
    BehaviorTreeInvertDecorator.PostUpdate .Failed = .Success ∧
    BehaviorTreeInvertDecorator.PostUpdate .Running = .Running :=
  ⟨rfl, rfl, rfl⟩

/-- C10: applying the Invert decorator's `PostUpdate` twice yields the original
result value: the transformation is an involution on the result type. -/
theorem invert_postUpdate_involution (r : BehaviorUpdateResult) :
    BehaviorTreeInvertDecorator.PostUpdate (BehaviorTreeInvertDecorator.PostUpdate r) = r := by
  cases r <;> rfl

/-- C9: for every knowledge-conditional decorator, a required knowledge selector
failing to resolve (modelled as `none`) makes `CanUpdate` return `false`: the
condition fails, for every comparison mode, literal operand and invert flag,
and the (total) tick path produces a value rather than an error. -/
theorem knowledge_unresolved_condition_false :
    (∀ (b : ℚ) (cmp : BehaviorValueComparison),
      BehaviorTreeKnowledgeConditionalDecorator.CanUpdate none b cmp = false) ∧
    (∀ (v : Option ℚ) (cmp : BehaviorValueComparison),
      BehaviorTreeKnowledgeValuesConditionalDecorator.CanUpdate none v cmp = false ∧
      BehaviorTreeKnowledgeValuesConditionalDecorator.CanUpdate v none cmp = false) ∧
    (∀ (tag : Nat) (invert : Bool),
      BehaviorTreeHasTagDecorator.CanUpdate none tag invert = false) := by
  refine ⟨fun b cmp => rfl, fun v cmp => ⟨rfl, ?_⟩, fun tag invert => rfl⟩
  cases v <;> rfl

/-- C7: the Loop decorator with an effective count of 3 over a child that
always succeeds yields Running, Running, then Success on the third completion;
over a child that fails on its second run it yields Failed at that second
completion (aborting early).  The counter is initialized at `InitState` from
`LoopCountSelector` when set, else `LoopCount`; a Success completion decrements
it and the result is overridden to Running exactly while the counter stays
above zero. -/
theorem loop_decorator_spec :
    BehaviorTreeLoopDecorator.Run (BehaviorTreeLoopDecorator.InitState 3 none)
        [.Success, .Success, .Success] = [.Running, .Running, .Success] ∧
    BehaviorTreeLoopDecorator.Run (BehaviorTreeLoopDecorator.InitState 3 none)
        [.Success, .Failed] = [.Running, .Failed] ∧
    (∀ c : Int, BehaviorTreeLoopDecorator.InitState c none = ⟨c⟩) ∧
    (∀ (c v : Int), BehaviorTreeLoopDecorator.InitState c (some v) = ⟨v⟩) ∧
    (∀ st : BehaviorTreeLoopDecorator.State,
      (BehaviorTreeLoopDecorator.PostUpdate st .Success).2.Loops = st.Loops - 1) ∧
    (∀ st : BehaviorTreeLoopDecorator.State,
      (BehaviorTreeLoopDecorator.PostUpdate st .Success).1 =
        if 0 < st.Loops - 1 then .Running else .Success) := by
  refine ⟨by decide, by decide, fun c => rfl, fun c v => rfl, fun st => rfl, fun st => rfl⟩

/-- C6: each tick the TimeLimit decorator's remaining time decreases by the
tick's delta time; on the tick where it reaches or crosses zero the result is
Failed regardless of the child's result and the child subtree receives
BecomeIrrelevant; before that point the child's result passes through
unchanged (and no BecomeIrrelevant is sent). -/
theorem timeLimit_update_spec (st : BehaviorTreeTimeLimitDecorator.State)
    (deltaTime : ℚ) (childResult : BehaviorUpdateResult) :
    (BehaviorTreeTimeLimitDecorator.Update st deltaTime childResult).2.1.TimeLeft =
      st.TimeLeft - deltaTime ∧
    (st.TimeLeft - deltaTime ≤ 0 →
      (BehaviorTreeTimeLimitDecorator.Update st deltaTime childResult).1 = .Failed ∧
      (BehaviorTreeTimeLimitDecorator.Update st deltaTime childResult).2.2 = true) ∧
    (0 < st.TimeLeft - deltaTime →
      (BehaviorTreeTimeLimitDecorator.Update st deltaTime childResult).1 = childResult ∧
      (BehaviorTreeTimeLimitDecorator.Update st deltaTime childResult).2.2 = false) := by
  unfold BehaviorTreeTimeLimitDecorator.Update
  split
  next hle => exact ⟨rfl, fun _ => ⟨rfl, rfl⟩, fun h => absurd hle (not_le.mpr h)⟩
  next hle => exact ⟨rfl, fun h => absurd h hle, fun _ => ⟨rfl, rfl⟩⟩

/-- Witness for C6: a TimeLimit with 1 second left, ticked with delta 1 while
the child is Running, fails and signals BecomeIrrelevant; with 2 seconds left
the child's Running result passes through. -/
theorem timeLimit_update_spec_witness :
    ((BehaviorTreeTimeLimitDecorator.Update ⟨1⟩ 1 .Running).1 = .Failed ∧
      (BehaviorTreeTimeLimitDecorator.Update ⟨1⟩ 1 .Running).2.2 = true) ∧
    ((BehaviorTreeTimeLimitDecorator.Update ⟨2⟩ 1 .Running).1 = .Running ∧
      (BehaviorTreeTimeLimitDecorator.Update ⟨2⟩ 1 .Running).2.2 = false) :=
  ⟨(timeLimit_update_spec ⟨1⟩ 1 .Running).2.1 (by norm_num),
    (timeLimit_update_spec ⟨2⟩ 1 .Running).2.2 (by norm_num)⟩

/-- C4: the Cooldown decorator's `ReleaseState` does not discard the stored end
time (the state survives the node becoming irrelevant), so after an
irrelevance/re-relevance cycle `CanUpdate` still returns false for every tick
time before the end time. -/
theorem cooldown_endTime_survives_release (st : BehaviorTreeCooldownDecorator.State)
    (time : ℚ) :
    BehaviorTreeCooldownDecorator.ReleaseState st = st ∧
    (time < st.EndTime →
      BehaviorTreeCooldownDecorator.CanUpdate
        (BehaviorTreeCooldownDecorator.ReleaseState st) time = false) := by
  refine ⟨rfl, fun h => ?_⟩
  simp [BehaviorTreeCooldownDecorator.CanUpdate,
    BehaviorTreeCooldownDecorator.ReleaseState, not_le.mpr h]

/-- Witness for C4: a cooldown whose end time is 2, released and queried at
time 1, still refuses to update. -/
theorem cooldown_endTime_survives_release_witness :
    BehaviorTreeCooldownDecorator.ReleaseState ⟨2⟩ = (⟨2⟩ : BehaviorTreeCooldownDecorator.State) ∧
    BehaviorTreeCooldownDecorator.CanUpdate
      (BehaviorTreeCooldownDecorator.ReleaseState ⟨2⟩) 1 = false :=
  ⟨(cooldown_endTime_survives_release ⟨2⟩ 1).1,
    (cooldown_endTime_survives_release ⟨2⟩ 1).2 (by norm_num)⟩

/-- C5: `BehaviorTreeSubTreeNode::ReleaseState` delivers a BecomeIrrelevant
notification for every nested node whose relevancy bit is set in the nested
tree's bitset — transitively, since each notified node's own release runs, so
relevant nested sub-trees-of-sub-trees are drained too — before freeing the
nested state buffer, and the state it leaves behind holds no live nested
state. -/
theorem subTree_releaseState_no_leak (buf : NestedBuf) :
    (NodeState.releaseState (.subTreeState buf)).1 =
      NodeState.liveCount (.subTreeState buf) ∧
    NodeState.liveCount (NodeState.releaseState (.subTreeState buf)).2 = 0 :=
  ⟨NodeState.releaseState_count _, rfl⟩
